import Mathlib

/-!
Verification development for the conets repository (src/cograph.py).

The file shallowly embeds the Python module: Python dicts become
association lists with Python's insertion-order update semantics
(assignment updates in place when the key exists, otherwise appends;
pop removes the entry or raises KeyError), Python exceptions become an
explicit error type threaded through Except / Option results, floats
appearing in the source are only ever constructed and compared, never
computed with, so they are embedded as rationals, and uuid4 freshness
is embedded as a counter threaded through the graph.
-/

namespace Conets

/-- Association-list model of a Python dict: insertion order is the list
order, keys are unique in any dict built through the operations below. -/
abbrev PyDict (α β : Type) := List (α × β)

/-- Python d[k] read: the value at the first matching key, none on a miss. -/
def dlookup {α β : Type} [DecidableEq α] (k : α) : PyDict α β → Option β
  | [] => none
  | (k', v) :: rest => if k' = k then some v else dlookup k rest

/-- Python `k in d`. -/
def dcontains {α β : Type} [DecidableEq α] (k : α) (d : PyDict α β) : Bool :=
  (dlookup k d).isSome

/-- Python d[k] = v: update in place when the key exists, append otherwise. -/
def dset {α β : Type} [DecidableEq α] (k : α) (v : β) : PyDict α β → PyDict α β
  | [] => [(k, v)]
  | (k', v') :: rest => if k' = k then (k', v) :: rest else (k', v') :: dset k v rest

/-- Python d.pop(k) with no default: removes the entry for k (the caller
checks presence separately, mirroring the KeyError on a miss). -/
def dpop {α β : Type} [DecidableEq α] (k : α) : PyDict α β → PyDict α β
  | [] => []
  | (k', v') :: rest => if k' = k then rest else (k', v') :: dpop k rest

/-- Python exceptions raised by the module, tagged with the exception
class and the message or offending key. -/
inductive PyErr : Type where
  | keyError (msg : String)
  | typeError (msg : String)
  | attributeError (msg : String)
deriving DecidableEq

/-- dataclass PhysicalProperties (src/cograph.py lines 9-14); float
fields embedded as rationals, only ever stored and compared. -/
structure PhysicalProperties : Type where
  resistance_ohms : ℚ
  capacitance_farads : ℚ
  inductance_teslas : ℚ
  temperature_delta_celsius : ℚ
deriving DecidableEq

/-- dataclass ApparentEMFState (src/cograph.py lines 17-20). -/
structure ApparentEMFState : Type where
  potential_volts : ℚ
  current_probe_amps : ℚ
deriving DecidableEq

/-- Types a Python attribute value can have in this module; only float
is declared by any component, the rest model arbitrary caller values. -/
inductive PyType : Type where
  | floatT
  | intT
  | strT
  | boolT
deriving DecidableEq

/-- Python values passed to on_set_attribute. -/
inductive PyVal : Type where
  | float (q : ℚ)
  | int (n : ℤ)
  | str (s : String)
  | bool (b : Bool)
deriving DecidableEq

/-- Python isinstance for the embedded value universe (bool counts as
int, as in Python). -/
def isinstance : PyVal → PyType → Bool
  | .float _, .floatT => true
  | .int _, .intT => true
  | .bool _, .intT => true
  | .str _, .strT => true
  | .bool _, .boolT => true
  | _, _ => false

/-- Per-pin state table _state['pins']: each pin maps to the list
[basis PhysicalProperties, dict from str(edge uuid) to that edge's
PhysicalProperties]; edge uuids are embedded as naturals (str on the
Python side is injective, so keying by the uuid itself is faithful). -/
abbrev PinTable := PyDict String (PhysicalProperties × PyDict Nat PhysicalProperties)

/-- LineEdge (src/cograph.py lines 65-83): uuid4 embedded as a natural
drawn from the graph's counter. -/
structure LineEdge : Type where
  uuid : Nat
  conductor : PhysicalProperties
  u_component_id : String
  u_component_pin : String
  v_component_id : String
  v_component_pin : String
deriving DecidableEq

/-- Instance state of Resistor (src/cograph.py lines 86-100). -/
structure ResistorState : Type where
  basis : PhysicalProperties
  temp_c : ℚ
  pins : PinTable
  ticks : Nat
deriving DecidableEq

/-- Resistor.__init__: basis 1000 ohm, pins p1 and p2, no connections. -/
def Resistor.mkInit : ResistorState :=
  let basis : PhysicalProperties := ⟨1000, 0, 0, 0⟩
  { basis := basis
    temp_c := 25
    pins := [("p1", (basis, [])), ("p2", (basis, []))]
    ticks := 0 }

/-- Resistor.input_basis_table (src/cograph.py lines 102-106): the body
is the set literal of "p1", self._basis, "p2", self._basis.
PhysicalProperties is a non-frozen eq dataclass, so its __hash__ is
None and building the set raises TypeError before anything is
returned; the embedding returns that exception. -/
def Resistor.input_basis_table (_st : ResistorState) :
    Except PyErr (PyDict String PhysicalProperties) :=
  .error (.typeError "unhashable type: PhysicalProperties")

/-- Resistor.on_initialisation (lines 108-110). -/
def Resistor.on_initialisation (st : ResistorState) (ambient_temp_c : ℚ) : ResistorState :=
  { st with temp_c := ambient_temp_c }

/-- Resistor.on_line_connect (lines 112-113): KeyError when the pin is
absent from _state['pins'], otherwise records the edge on the pin. -/
def Resistor.on_line_connect (st : ResistorState) (component_line_key : String)
    (line_uuid : Nat) (line_properties : PhysicalProperties) : Except PyErr ResistorState :=
  match dlookup component_line_key st.pins with
  | none => .error (.keyError component_line_key)
  | some (b, em) =>
      .ok { st with pins := dset component_line_key (b, dset line_uuid line_properties em) st.pins }

/-- Resistor.on_line_disconnect (lines 115-116): dict.pop with no
default, so KeyError when the edge was never connected to the pin. -/
def Resistor.on_line_disconnect (st : ResistorState) (component_line_key : String)
    (line_id : Nat) : Except PyErr ResistorState :=
  match dlookup component_line_key st.pins with
  | none => .error (.keyError component_line_key)
  | some (b, em) =>
      if dcontains line_id em then
        .ok { st with pins := dset component_line_key (b, dpop line_id em) st.pins }
      else .error (.keyError (toString line_id))

/-- Resistor.on_set_attribute (lines 122-123): always False. -/
def Resistor.on_set_attribute (_st : ResistorState) (_key : String) (_value : PyVal) : Bool :=
  false

/-- Resistor.attribute_lookup (lines 125-127). -/
def Resistor.attribute_lookup (_st : ResistorState) : PyDict String PyType :=
  []

/-- Instance state of VoltageDC (src/cograph.py lines 129-148).
attributes_decl is self._attributes (set by __init__);
attrib_type_map is self._attrib_type_map, the class attribute that
__init__ never assigns, so it stays None. -/
structure VoltageDCState : Type where
  basis : PhysicalProperties
  attributes_decl : PyDict String PyType
  attrib_type_map : Option (PyDict String PyType)
  temp_c : ℚ
  pins : PinTable
  ticks : Nat
  state_attributes : PyDict String (Option PyVal)
deriving DecidableEq

/-- VoltageDC.__init__: zero basis, pins pos and neg, one declared
attribute, _state['attributes'] = dict.fromkeys (all None). -/
def VoltageDC.mkInit : VoltageDCState :=
  let basis : PhysicalProperties := ⟨0, 0, 0, 0⟩
  { basis := basis
    attributes_decl := [("voltage_selector_state", .floatT)]
    attrib_type_map := none
    temp_c := 25
    pins := [("pos", (basis, [])), ("neg", (basis, []))]
    ticks := 0
    state_attributes := [("voltage_selector_state", none)] }

/-- VoltageDC.on_initialisation (lines 150-152). -/
def VoltageDC.on_initialisation (st : VoltageDCState) (ambient_temp_c : ℚ) : VoltageDCState :=
  { st with temp_c := ambient_temp_c }

/-- VoltageDC.on_line_connect (lines 154-155), same body as the
resistor's. -/
def VoltageDC.on_line_connect (st : VoltageDCState) (component_line_key : String)
    (line_uuid : Nat) (line_properties : PhysicalProperties) : Except PyErr VoltageDCState :=
  match dlookup component_line_key st.pins with
  | none => .error (.keyError component_line_key)
  | some (b, em) =>
      .ok { st with pins := dset component_line_key (b, dset line_uuid line_properties em) st.pins }

/-- VoltageDC.on_line_disconnect (lines 158-159). -/
def VoltageDC.on_line_disconnect (st : VoltageDCState) (component_line_key : String)
    (line_id : Nat) : Except PyErr VoltageDCState :=
  match dlookup component_line_key st.pins with
  | none => .error (.keyError component_line_key)
  | some (b, em) =>
      if dcontains line_id em then
        .ok { st with pins := dset component_line_key (b, dpop line_id em) st.pins }
      else .error (.keyError (toString line_id))

/-- VoltageDC.on_set_attribute (lines 166-173). The membership test
`key not in self._attrib_type_map` runs on None (the class attribute is
never assigned: __init__ fills self._attributes instead), so every call
raises TypeError. Were the map present, an unknown key or isinstance
mismatch would return False, and the store into self._state['attribute']
(a key _state does not have: it is 'attributes') would raise KeyError;
the function has no return on that path, hence Option Bool. -/
def VoltageDC.on_set_attribute (st : VoltageDCState) (key : String) (value : PyVal) :
    Except PyErr (VoltageDCState × Option Bool) :=
  match st.attrib_type_map with
  | none => .error (.typeError "argument of type NoneType is not iterable")
  | some m =>
      match dlookup key m with
      | none => .ok (st, some false)
      | some t =>
          if isinstance value t then .error (.keyError "attribute")
          else .ok (st, some false)

/-- VoltageDC.attribute_lookup (lines 175-177): returns
self._attrib_type_map, which is None. -/
def VoltageDC.attribute_lookup (st : VoltageDCState) : Option (PyDict String PyType) :=
  st.attrib_type_map

/-- VoltageDC.input_basis_table (lines 179-184): the source writes the
key 'neg:' (with a trailing colon) for the second pin. -/
def VoltageDC.input_basis_table (st : VoltageDCState) : PyDict String PhysicalProperties :=
  [("pos", st.basis), ("neg:", st.basis)]

/-- The concrete ComponentNode variants present in the source. -/
inductive CompVariant : Type where
  | resistor (st : ResistorState)
  | voltageDC (st : VoltageDCState)
deriving DecidableEq

/-- The pin state table of either variant. -/
def CompVariant.pins : CompVariant → PinTable
  | .resistor st => st.pins
  | .voltageDC st => st.pins

/-- Dynamic dispatch of on_line_connect over the variants. -/
def CompVariant.on_line_connect (c : CompVariant) (component_line_key : String)
    (line_uuid : Nat) (line_properties : PhysicalProperties) : Except PyErr CompVariant :=
  match c with
  | .resistor st =>
      (Resistor.on_line_connect st component_line_key line_uuid line_properties).map .resistor
  | .voltageDC st =>
      (VoltageDC.on_line_connect st component_line_key line_uuid line_properties).map .voltageDC

/-- Dynamic dispatch of on_line_disconnect over the variants. -/
def CompVariant.on_line_disconnect (c : CompVariant) (component_line_key : String)
    (line_id : Nat) : Except PyErr CompVariant :=
  match c with
  | .resistor st =>
      (Resistor.on_line_disconnect st component_line_key line_id).map .resistor
  | .voltageDC st =>
      (VoltageDC.on_line_disconnect st component_line_key line_id).map .voltageDC

/-- What a label resolves to. Python aliases the object between
_labels and the _c_nodes / _l_edges lists; the embedding stores the
objects in those lists (arenas) and lets labels carry indices, which
preserves the aliasing of mutation through either path. -/
inductive LRef : Type where
  | compRef (i : Nat)
  | edgeRef (i : Nat)
deriving DecidableEq

/-- An argument to define: a component, an edge, or any other Python
object (tagged by its type name, for the unrecognised-type branch). -/
inductive Item : Type where
  | comp (c : CompVariant)
  | edge (e : LineEdge)
  | other (typeName : String)
deriving DecidableEq

/-- CircuitGraph state (src/cograph.py lines 187-196), plus the uuid
counter embedding uuid4 freshness: every uuid ever drawn equals a
former counter value and the counter only grows. -/
structure CircuitGraph : Type where
  labels : PyDict String LRef
  c_nodes : List CompVariant
  l_edges : List LineEdge
  uuidCtr : Nat
deriving DecidableEq

/-- CircuitGraph.__init__. -/
def CircuitGraph.empty : CircuitGraph :=
  { labels := [], c_nodes := [], l_edges := [], uuidCtr := 0 }

/-- The message of the KeyError define raises on a duplicate label. -/
def defineDupMsg : String := "CircuitGraph.define(): Cannot define component"

/-- The message of the TypeError define raises on an unrecognised item. -/
def defineTypeMsg : String :=
  "CircuitGraph.define(): Attempt to add unrecognised item type provided"

/-- CircuitGraph.define (lines 204-214): duplicate label is checked
first and raises KeyError; a component or edge is appended to its list
and the label bound to it; anything else raises TypeError. The pair
returns the graph as Python's mutations left it next to the exception,
if any. -/
def CircuitGraph.define (g : CircuitGraph) (label : String) (item : Item) :
    CircuitGraph × Option PyErr :=
  if dcontains label g.labels then
    (g, some (.keyError defineDupMsg))
  else
    match item with
    | .comp c =>
        ({ g with c_nodes := g.c_nodes ++ [c]
                  labels := dset label (.compRef g.c_nodes.length) g.labels }, none)
    | .edge e =>
        ({ g with l_edges := g.l_edges ++ [e]
                  labels := dset label (.edgeRef g.l_edges.length) g.labels }, none)
    | .other _ => (g, some (.typeError defineTypeMsg))

/-- One self._labels[lbl].on_line_connect(pin, uuid, props) step of
link: KeyError when the label is unbound, AttributeError when it names
a LineEdge (which has no on_line_connect), else the component's own
connect, whose update is written back to the component arena. -/
def CircuitGraph.connectAt (g : CircuitGraph) (lbl pin : String) (line_uuid : Nat)
    (line_properties : PhysicalProperties) : Except PyErr CircuitGraph :=
  match dlookup lbl g.labels with
  | none => .error (.keyError lbl)
  | some (.edgeRef _) =>
      .error (.attributeError "LineEdge object has no attribute on_line_connect")
  | some (.compRef i) =>
      match g.c_nodes[i]? with
      | none => .error (.keyError lbl)
      | some c =>
          match c.on_line_connect pin line_uuid line_properties with
          | .error e => .error e
          | .ok c2 => .ok { g with c_nodes := g.c_nodes.set i c2 }

/-- CircuitGraph.link (lines 217-228): builds the LineEdge (drawing a
fresh uuid), connects the u endpoint, then the v endpoint, then defines
the edge under the label, returning its uuid. Any exception aborts the
call there, leaving the mutations already made in place. -/
def CircuitGraph.link (g : CircuitGraph) (label : String)
    (component_u_label_pin component_v_label_pin : String × String)
    (line_properties : PhysicalProperties) : CircuitGraph × Except PyErr Nat :=
  let u_id := component_u_label_pin.1
  let u_pin := component_u_label_pin.2
  let v_id := component_v_label_pin.1
  let v_pin := component_v_label_pin.2
  let uuid := g.uuidCtr
  let edge : LineEdge :=
    { uuid := uuid, conductor := line_properties
      u_component_id := u_id, u_component_pin := u_pin
      v_component_id := v_id, v_component_pin := v_pin }
  let g0 := { g with uuidCtr := g.uuidCtr + 1 }
  match g0.connectAt u_id u_pin uuid line_properties with
  | .error e => (g0, .error e)
  | .ok g1 =>
      match g1.connectAt v_id v_pin uuid line_properties with
      | .error e => (g1, .error e)
      | .ok g2 =>
          match g2.define label (.edge edge) with
          | (g3, some e) => (g3, .error e)
          | (g3, none) => (g3, .ok uuid)

/-- The dict of connected edges on one pin of a pin table. -/
def pinEdgeMap (pt : PinTable) (pin : String) : PyDict Nat PhysicalProperties :=
  match dlookup pin pt with
  | some (_, em) => em
  | none => []

/-- The edge properties registered for a given edge uuid on a given
pin of the component a label names, when all lookups succeed. -/
def CircuitGraph.compPinEdge (g : CircuitGraph) (lbl pin : String) (line_uuid : Nat) :
    Option PhysicalProperties :=
  match dlookup lbl g.labels with
  | some (.compRef i) =>
      match g.c_nodes[i]? with
      | some c => dlookup line_uuid (pinEdgeMap c.pins pin)
      | none => none
  | _ => none

/-- Whether a label names a component (with a live arena slot). -/
def CircuitGraph.isComponentLabel (g : CircuitGraph) (lbl : String) : Bool :=
  match dlookup lbl g.labels with
  | some (.compRef i) => i < g.c_nodes.length
  | _ => false

/-- Whether a label names a component that has the given pin in its
_state['pins'] table. -/
def CircuitGraph.hasCompPin (g : CircuitGraph) (lbl pin : String) : Bool :=
  match dlookup lbl g.labels with
  | some (.compRef i) =>
      match g.c_nodes[i]? with
      | some c => dcontains pin c.pins
      | none => false
  | _ => false

/-- The exceptions raised by a sequence of define calls, in order,
threading the graph mutations through. -/
def defineTrace (g : CircuitGraph) : List (String × Item) → List (Option PyErr)
  | [] => []
  | (l, it) :: rest => (g.define l it).2 :: defineTrace (g.define l it).1 rest

/-- Python == on one pin entry: equal basis, and the edge dicts hold
the same keys with the same values (order-insensitive, as Python dict
equality is). -/
def pinEntryEquiv :
    Option (PhysicalProperties × PyDict Nat PhysicalProperties) →
    Option (PhysicalProperties × PyDict Nat PhysicalProperties) → Prop
  | none, none => True
  | some (b1, e1), some (b2, e2) => b1 = b2 ∧ ∀ i, dlookup i e1 = dlookup i e2
  | _, _ => False

/-- Python == on two pin tables: pointwise pinEntryEquiv. -/
def pinTableEquiv (p q : PinTable) : Prop :=
  ∀ k, pinEntryEquiv (dlookup k p) (dlookup k q)

/-- Python == on component states: same variant, equal scalar fields,
and pin tables equal as Python dicts. -/
def CompVariant.pyEq (c d : CompVariant) : Prop :=
  match c, d with
  | .resistor s, .resistor t =>
      s.basis = t.basis ∧ s.temp_c = t.temp_c ∧ s.ticks = t.ticks ∧
      pinTableEquiv s.pins t.pins
  | .voltageDC s, .voltageDC t =>
      s.basis = t.basis ∧ s.attributes_decl = t.attributes_decl ∧
      s.attrib_type_map = t.attrib_type_map ∧ s.temp_c = t.temp_c ∧
      s.ticks = t.ticks ∧ s.state_attributes = t.state_attributes ∧
      pinTableEquiv s.pins t.pins
  | _, _ => False

/-- Concrete line properties used by the concrete graphs below. -/
def exProps : PhysicalProperties := ⟨1, 0, 0, 0⟩

/-- A graph holding one VoltageDC under label v. -/
def exG1 : CircuitGraph :=
  (CircuitGraph.empty.define "v" (.comp (.voltageDC VoltageDC.mkInit))).1

/-- exG1 plus one Resistor under label r. -/
def exG2 : CircuitGraph :=
  (exG1.define "r" (.comp (.resistor Resistor.mkInit))).1

/-- exG2 plus the edge e linking the v pin neg to the r pin p1. -/
def exG3 : CircuitGraph :=
  (exG2.link "e" ("v", "neg") ("r", "p1") exProps).1

/-- Modelled from the spec: the tick-driver state is missing from
src/cograph.py (CircuitGraph has no tick counter, no edge-state table
and no advance_tick; no variant implements on_tdelta). Per spec
sections 3 and 4.4 the graph owns the committed per-edge
ApparentEMFState table and the global tick counter. -/
structure TickGraphState : Type where
  graph : CircuitGraph
  edge_states : PyDict Nat ApparentEMFState
  tick : Nat
deriving DecidableEq

/-- Modelled from the spec: TickResult of section 6, either the new
committed edge states or a convergence failure. -/
inductive TickResult : Type where
  | committed (states : PyDict Nat ApparentEMFState)
  | convergenceFailure
deriving DecidableEq

/-- Modelled from the spec: advance_tick (sections 4.4 and 7). The
gather / compute / reconcile pipeline is abstracted as a reconcile
function returning the reconciled edge states, or none when bounded
relaxation exhausts its iteration cap on some edge. On success the
reconciled states are committed and the tick counter is incremented by
one; on ConvergenceFailure the tick does not commit and the state is
returned untouched. -/
def advance_tick (reconcile : TickGraphState → Option (PyDict Nat ApparentEMFState))
    (s : TickGraphState) : TickGraphState × TickResult :=
  match reconcile s with
  | some es => ({ s with edge_states := es, tick := s.tick + 1 }, .committed es)
  | none => (s, .convergenceFailure)

/-- A concrete tick state used by the C9 witness. -/
def exTickState : TickGraphState :=
  { graph := CircuitGraph.empty, edge_states := [], tick := 3 }

/-! ## Lemmas about the Python dict model -/

theorem dlookup_dset_self {α β : Type} [DecidableEq α] (k : α) (v : β) (d : PyDict α β) :
    dlookup k (dset k v d) = some v := by
  induction d with
  | nil => simp [dset, dlookup]
  | cons hd tl ih =>
    obtain ⟨k', v'⟩ := hd
    by_cases h : k' = k <;> simp [dset, dlookup, h, ih]

theorem dlookup_dset_ne {α β : Type} [DecidableEq α] {k k' : α} (v : β) (d : PyDict α β)
    (h : k' ≠ k) : dlookup k (dset k' v d) = dlookup k d := by
  induction d with
  | nil => simp [dset, dlookup, h]
  | cons hd tl ih =>
    obtain ⟨k'', v''⟩ := hd
    by_cases h2 : k'' = k'
    · subst h2
      simp [dset, dlookup, h]
    · by_cases h3 : k'' = k <;> simp [dset, dlookup, h2, h3, Ne.symm h, ih]

theorem dlookup_dpop_ne {α β : Type} [DecidableEq α] {k k' : α} (d : PyDict α β)
    (h : k' ≠ k) : dlookup k (dpop k' d) = dlookup k d := by
  induction d with
  | nil => simp [dpop]
  | cons hd tl ih =>
    obtain ⟨k'', v''⟩ := hd
    by_cases h2 : k'' = k'
    · subst h2
      simp [dpop, dlookup, h]
    · by_cases h3 : k'' = k <;> simp [dpop, dlookup, h2, h3, Ne.symm h, ih]

theorem dpop_dset_of_not_mem {α β : Type} [DecidableEq α] (k : α) (v : β) (d : PyDict α β)
    (h : dcontains k d = false) : dpop k (dset k v d) = d := by
  induction d with
  | nil => simp [dset, dpop]
  | cons hd tl ih =>
    obtain ⟨k', v'⟩ := hd
    by_cases h2 : k' = k
    · subst h2
      simp [dcontains, dlookup] at h
    · simp only [dcontains, dlookup, h2, if_false] at h
      simp [dset, dpop, h2, ih h]

theorem dcontains_dset {α β : Type} [DecidableEq α] (k k' : α) (v : β) (d : PyDict α β) :
    dcontains k (dset k' v d) = (dcontains k d || decide (k = k')) := by
  by_cases h : k' = k
  · subst h
    simp [dcontains, dlookup_dset_self]
  · have h2 : k ≠ k' := fun hh => h hh.symm
    simp [dcontains, dlookup_dset_ne v d h, h2]

theorem dcontains_of_dlookup {α β : Type} [DecidableEq α] {k : α} {v : β} {d : PyDict α β}
    (h : dlookup k d = some v) : dcontains k d = true := by
  simp [dcontains, h]


theorem dset_dset_self {α β : Type} [DecidableEq α] (k : α) (v1 v2 : β) (d : PyDict α β) :
    dset k v2 (dset k v1 d) = dset k v2 d := by
  induction d with
  | nil => simp [dset]
  | cons hd tl ih =>
    obtain ⟨k', v'⟩ := hd
    by_cases h : k' = k <;> simp [dset, h, ih]

theorem dcontains_dset_of_mem {α β : Type} [DecidableEq α] {p : α} {d : PyDict α β}
    (v : β) (h : dcontains p d = true) (k : α) :
    dcontains k (dset p v d) = dcontains k d := by
  rw [dcontains_dset]
  by_cases hk : k = p
  · subst hk
    simp [h]
  · simp [hk]

theorem pinEntryEquiv_refl (o : Option (PhysicalProperties × PyDict Nat PhysicalProperties)) :
    pinEntryEquiv o o := by
  cases o with
  | none => trivial
  | some p =>
    obtain ⟨b, e⟩ := p
    exact ⟨rfl, fun _ => rfl⟩

theorem dlookup_reconnect {β : Type} (X : Nat) (v : β) (d : PyDict Nat β) (k : Nat) :
    dlookup k (dset X v (dpop X (dset X v d))) = dlookup k (dset X v d) := by
  by_cases hk : k = X
  · subst hk
    rw [dlookup_dset_self, dlookup_dset_self]
  · have hX : X ≠ k := fun h => hk h.symm
    rw [dlookup_dset_ne _ _ hX, dlookup_dpop_ne _ hX, dlookup_dset_ne _ _ hX]

/-! ## Claim theorems -/

/-- Claim C5 (code bug exhibit): on_set_attribute is specified to
return a boolean and never raise, and the source comments the same
intent, but VoltageDC.__init__ fills self._attributes while the
membership test reads self._attrib_type_map, which is still the class
attribute None; every call therefore raises TypeError instead of
returning a boolean. -/
theorem cograph_C5_on_set_attribute_raises :
    ∀ (key : String) (value : PyVal),
      VoltageDC.on_set_attribute VoltageDC.mkInit key value =
        .error (.typeError "argument of type NoneType is not iterable") :=
  fun _ _ => rfl

/-- Claim C7 (code bug exhibit): input_basis_table is specified as the
mapping from valid pin names to basis properties, but the Resistor
implementation builds a set of an unhashable dataclass and raises
TypeError, and the VoltageDC implementation misspells the key neg as
neg: while the component state table does use neg. -/
theorem cograph_C7_input_basis_table_bug :
    Resistor.input_basis_table Resistor.mkInit =
      .error (.typeError "unhashable type: PhysicalProperties") ∧
    (VoltageDC.input_basis_table VoltageDC.mkInit).map Prod.fst = ["pos", "neg:"] ∧
    dcontains "neg" (VoltageDC.input_basis_table VoltageDC.mkInit) = false ∧
    dcontains "neg" VoltageDC.mkInit.pins = true := by
  refine ⟨rfl, rfl, by decide, by decide⟩

/-- Claim C6 (code bug exhibit): connecting to the VoltageDC pin neg
succeeds and registers the edge even though neg is absent from
input_basis_table (whose second key is the misspelt neg:), so
on_line_connect does not fail for every pin outside the basis table;
the guard the code actually applies is the _state pins table, as the
third conjunct shows for a genuinely unknown pin. -/
theorem cograph_C6_unknown_pin_bug :
    dcontains "neg" (VoltageDC.input_basis_table VoltageDC.mkInit) = false ∧
    (VoltageDC.on_line_connect VoltageDC.mkInit "neg" 7 exProps).map
        (fun st => dlookup 7 (pinEdgeMap st.pins "neg")) = .ok (some exProps) ∧
    VoltageDC.on_line_connect VoltageDC.mkInit "xyz" 7 exProps =
      .error (.keyError "xyz") := by
  refine ⟨by decide, rfl, rfl⟩

/-- Claim C4 (code bug exhibit): link succeeds in creating an edge
whose endpoint pin neg is absent from the target VoltageDC's
input_basis_table (link validates pins against _state pins, and the
basis table misspells neg as neg:), so an edge present after link can
reference a pin outside the basis table. -/
theorem cograph_C4_link_pin_not_in_basis :
    (exG2.link "e" ("v", "neg") ("r", "p1") exProps).2 = .ok 0 ∧
    (exG2.link "e" ("v", "neg") ("r", "p1") exProps).1.l_edges.map
        (fun e => (e.u_component_pin, e.v_component_pin)) = [("neg", "p1")] ∧
    dcontains "neg" (VoltageDC.input_basis_table VoltageDC.mkInit) = false := by
  refine ⟨rfl, rfl, by decide⟩

/-- Claim C10: whenever define raises (duplicate label or unrecognised
item type), the raise happens before any mutation, so the label table,
the component list and the edge list are exactly as before the call. -/
theorem cograph_C10_define_failure_unchanged (g : CircuitGraph) (label : String)
    (item : Item) (e : PyErr) (h : (g.define label item).2 = some e) :
    (g.define label item).1 = g := by
  unfold CircuitGraph.define at h ⊢
  by_cases hc : dcontains label g.labels
  · simp [hc]
  · cases item <;> simp [hc] at h ⊢

/-- Witness for C10 at a concrete failing define. -/
theorem cograph_C10_witness :
    (exG2.define "r" (Item.other "int")).1 = exG2 :=
  cograph_C10_define_failure_unchanged exG2 "r" (Item.other "int")
    (.keyError defineDupMsg) (by decide)

/-- Counterexample to claim C1 as stated: both endpoint labels v and r
name previously defined components, yet link returns the duplicate
label exception rather than the new edge id, because the edge label r
is already taken and define is reached only after both connects. -/
theorem cograph_C1_counterexample :
    exG2.isComponentLabel "v" = true ∧ exG2.isComponentLabel "r" = true ∧
    (exG2.link "r" ("v", "pos") ("r", "p1") exProps).2 =
      .error (.keyError defineDupMsg) := by
  refine ⟨by decide, by decide, rfl⟩

/-- Counterexample to claim C2 as stated: a define whose item is
neither a ComponentNode nor a LineEdge but whose label is already
taken fails with the duplicate-label KeyError, not with the
unrecognised-item TypeError, because define checks the label first. -/
theorem cograph_C2_counterexample :
    (exG2.define "r" (Item.other "int")).2 = some (.keyError defineDupMsg) ∧
    (exG2.define "r" (Item.other "int")).2 ≠ some (.typeError defineTypeMsg) := by
  refine ⟨by decide, by decide⟩

/-- Counterexample to claim C3 as stated: the label e is defined but
names an edge, not a component; link on that endpoint raises
AttributeError (LineEdge has no on_line_connect), not the
unknown-label KeyError condition. -/
theorem cograph_C3_counterexample :
    dcontains "e" exG3.labels = true ∧
    exG3.isComponentLabel "e" = false ∧
    (exG3.link "f" ("e", "p1") ("r", "p2") exProps).2 =
      .error (.attributeError "LineEdge object has no attribute on_line_connect") := by
  refine ⟨by decide, by decide, rfl⟩

/-- Claim C9: per successful advance_tick the tick counter increases
by exactly one, and on ConvergenceFailure nothing commits: the state,
its committed edge table included, is returned untouched. The tick
driver is absent from src/cograph.py, so this is settled against the
advance_tick model built from spec sections 4.4, 6 and 7. -/
theorem cograph_C9_tick_monotonic
    (reconcile : TickGraphState → Option (PyDict Nat ApparentEMFState))
    (s : TickGraphState) :
    ((advance_tick reconcile s).2 ≠ TickResult.convergenceFailure →
      (advance_tick reconcile s).1.tick = s.tick + 1) ∧
    ((advance_tick reconcile s).2 = TickResult.convergenceFailure →
      (advance_tick reconcile s).1 = s) := by
  unfold advance_tick
  cases h : reconcile s <;> simp

/-- Witness for C9 at a concrete state, once with a succeeding
reconcile and once with a failing one. -/
theorem cograph_C9_witness :
    (advance_tick (fun _ => some []) exTickState).1.tick = exTickState.tick + 1 ∧
    (advance_tick (fun _ => none) exTickState).1 = exTickState :=
  ⟨(cograph_C9_tick_monotonic (fun _ => some []) exTickState).1 (by decide),
   (cograph_C9_tick_monotonic (fun _ => none) exTickState).2 rfl⟩

theorem define_dup_fails (g : CircuitGraph) (label : String) (item : Item)
    (h : dcontains label g.labels = true) :
    (g.define label item).2 = some (.keyError defineDupMsg) := by
  unfold CircuitGraph.define
  simp [h]

theorem define_labels_mono (g : CircuitGraph) (l label : String) (item : Item)
    (h : dcontains l g.labels = true) :
    dcontains l ((g.define label item).1).labels = true := by
  unfold CircuitGraph.define
  by_cases hc : dcontains label g.labels
  · simp [hc, h]
  · cases item <;> simp [hc, dcontains_dset, h]

theorem define_success_contains (g : CircuitGraph) (label : String) (item : Item)
    (h : (g.define label item).2 = none) :
    dcontains label ((g.define label item).1).labels = true := by
  unfold CircuitGraph.define at h ⊢
  by_cases hc : dcontains label g.labels
  · simp [hc] at h
  · cases item <;> simp [hc, dcontains_dset] at h ⊢

theorem defineTrace_dup (l : String) :
    ∀ (ops : List (String × Item)) (g : CircuitGraph), dcontains l g.labels = true →
    ∀ (j : Nat) (itj : Item), ops[j]? = some (l, itj) →
    (defineTrace g ops)[j]? = some (some (.keyError defineDupMsg)) := by
  intro ops
  induction ops with
  | nil => intro g _ j itj hj; simp at hj
  | cons hd rest ih =>
    obtain ⟨l0, it0⟩ := hd
    intro g hg j itj hj
    cases j with
    | zero =>
      simp at hj
      obtain ⟨hl, _⟩ := hj
      subst hl
      simp [defineTrace, define_dup_fails g l0 it0 hg]
    | succ j2 =>
      simp at hj
      simp [defineTrace]
      exact ih ((g.define l0 it0).1) (define_labels_mono g l l0 it0 hg) j2 itj hj

theorem defineTrace_unique (l : String) :
    ∀ (ops : List (String × Item)) (g : CircuitGraph) (i j : Nat) (iti itj : Item),
    i < j → ops[i]? = some (l, iti) → ops[j]? = some (l, itj) →
    (defineTrace g ops)[i]? = some none →
    (defineTrace g ops)[j]? = some (some (.keyError defineDupMsg)) := by
  intro ops
  induction ops with
  | nil => intro g i j iti itj _ hi; simp at hi
  | cons hd rest ih =>
    obtain ⟨l0, it0⟩ := hd
    intro g i j iti itj hij hi hj htr
    cases i with
    | zero =>
      simp at hi
      obtain ⟨hl, _⟩ := hi
      subst hl
      obtain ⟨j2, rfl⟩ : ∃ j2, j = j2 + 1 := ⟨j - 1, by omega⟩
      simp at hj
      simp [defineTrace] at htr
      simp [defineTrace]
      exact defineTrace_dup l0 rest ((g.define l0 it0).1)
        (define_success_contains g l0 it0 htr) j2 itj hj
    | succ i2 =>
      obtain ⟨j2, rfl⟩ : ∃ j2, j = j2 + 1 := ⟨j - 1, by omega⟩
      simp at hi hj
      simp [defineTrace] at htr
      simp [defineTrace]
      exact ih ((g.define l0 it0).1) i2 j2 iti itj (by omega) hi hj htr

/-- Claim C2 (amended): no two define calls in any sequence succeed
with the same label; a define whose label is already present always
fails with the duplicate-label condition; and a define whose item is
neither a ComponentNode nor a LineEdge fails with the
unrecognised-item-type condition whenever its label is fresh (the
duplicate-label check runs first and wins when both conditions
apply). -/
theorem cograph_C2_define_unique :
    (∀ (g : CircuitGraph) (label : String) (item : Item),
        dcontains label g.labels = true →
        (g.define label item).2 = some (.keyError defineDupMsg)) ∧
    (∀ (g : CircuitGraph) (label typeName : String),
        dcontains label g.labels = false →
        (g.define label (.other typeName)).2 = some (.typeError defineTypeMsg)) ∧
    (∀ (g : CircuitGraph) (ops : List (String × Item)) (i j : Nat) (l : String)
        (iti itj : Item), i < j → ops[i]? = some (l, iti) → ops[j]? = some (l, itj) →
        (defineTrace g ops)[i]? = some none →
        (defineTrace g ops)[j]? = some (some (.keyError defineDupMsg))) := by
  refine ⟨define_dup_fails, ?_, ?_⟩
  · intro g label typeName h
    unfold CircuitGraph.define
    simp [h]
  · intro g ops i j l iti itj hij hi hj htr
    exact defineTrace_unique l ops g i j iti itj hij hi hj htr

/-- Witness for C2 applying all three conjuncts at concrete inputs. -/
theorem cograph_C2_witness :
    (exG2.define "r" (Item.comp (.resistor Resistor.mkInit))).2 =
      some (.keyError defineDupMsg) ∧
    (CircuitGraph.empty.define "z" (Item.other "int")).2 =
      some (.typeError defineTypeMsg) ∧
    (defineTrace CircuitGraph.empty
        [("a", Item.comp (.resistor Resistor.mkInit)),
         ("a", Item.comp (.resistor Resistor.mkInit))])[1]? =
      some (some (.keyError defineDupMsg)) :=
  ⟨cograph_C2_define_unique.1 exG2 "r" (Item.comp (.resistor Resistor.mkInit)) (by decide),
   cograph_C2_define_unique.2.1 CircuitGraph.empty "z" "int" (by decide),
   cograph_C2_define_unique.2.2 CircuitGraph.empty
     [("a", Item.comp (.resistor Resistor.mkInit)),
      ("a", Item.comp (.resistor Resistor.mkInit))]
     0 1 "a" (Item.comp (.resistor Resistor.mkInit)) (Item.comp (.resistor Resistor.mkInit))
     (by omega) rfl rfl (by decide)⟩

theorem CompVariant.connect_ok (c : CompVariant) (pin : String) (u : Nat)
    (pr b : PhysicalProperties) (em : PyDict Nat PhysicalProperties)
    (h : dlookup pin c.pins = some (b, em)) :
    ∃ c2, c.on_line_connect pin u pr = .ok c2 ∧
      c2.pins = dset pin (b, dset u pr em) c.pins := by
  cases c with
  | resistor st =>
    have h2 : dlookup pin st.pins = some (b, em) := h
    refine ⟨.resistor { st with pins := dset pin (b, dset u pr em) st.pins }, ?_, rfl⟩
    simp [CompVariant.on_line_connect, Resistor.on_line_connect, h2, Except.map]
  | voltageDC st =>
    have h2 : dlookup pin st.pins = some (b, em) := h
    refine ⟨.voltageDC { st with pins := dset pin (b, dset u pr em) st.pins }, ?_, rfl⟩
    simp [CompVariant.on_line_connect, VoltageDC.on_line_connect, h2, Except.map]

theorem connectAt_not_component (g : CircuitGraph) (lbl pin : String) (u : Nat)
    (pr : PhysicalProperties) (h : g.isComponentLabel lbl = false) :
    ∃ e, g.connectAt lbl pin u pr = .error e := by
  unfold CircuitGraph.isComponentLabel at h
  rcases hl : dlookup lbl g.labels with _ | r
  · exact ⟨.keyError lbl, by simp [CircuitGraph.connectAt, hl]⟩
  · cases r with
    | edgeRef k =>
      exact ⟨.attributeError "LineEdge object has no attribute on_line_connect",
        by simp [CircuitGraph.connectAt, hl]⟩
    | compRef i =>
      rw [hl] at h
      simp at h
      have hc : g.c_nodes[i]? = none := by
        rw [List.getElem?_eq_none_iff]
        omega
      exact ⟨.keyError lbl, by simp [CircuitGraph.connectAt, hl, hc]⟩

theorem connectAt_ok_shape (g g2 : CircuitGraph) (lbl pin : String) (u : Nat)
    (pr : PhysicalProperties) (h : g.connectAt lbl pin u pr = .ok g2) :
    g2.labels = g.labels ∧ g2.l_edges = g.l_edges ∧ g2.uuidCtr = g.uuidCtr ∧
    g2.c_nodes.length = g.c_nodes.length := by
  unfold CircuitGraph.connectAt at h
  rcases hl : dlookup lbl g.labels with _ | r
  · simp [hl] at h
  · cases r with
    | edgeRef k => simp [hl] at h
    | compRef i =>
      rcases hc : g.c_nodes[i]? with _ | c
      · simp [hl, hc] at h
      · rcases ho : c.on_line_connect pin u pr with e | c2
        · simp [hl, hc, ho] at h
        · simp [hl, hc, ho] at h
          subst h
          exact ⟨rfl, rfl, rfl, by simp⟩

theorem connectAt_hasPin_ok (g : CircuitGraph) (lbl pin : String) (u : Nat)
    (pr : PhysicalProperties) (h : g.hasCompPin lbl pin = true) :
    ∃ g2, g.connectAt lbl pin u pr = .ok g2 ∧ g2.labels = g.labels ∧
      g2.l_edges = g.l_edges ∧ g2.uuidCtr = g.uuidCtr ∧
      g2.c_nodes.length = g.c_nodes.length := by
  unfold CircuitGraph.hasCompPin at h
  rcases hl : dlookup lbl g.labels with _ | r
  · rw [hl] at h
    simp at h
  · cases r with
    | edgeRef k =>
      rw [hl] at h
      simp at h
    | compRef i =>
      simp only [hl] at h
      rcases hc : g.c_nodes[i]? with _ | c
      · rw [hc] at h
        simp at h
      · rw [hc] at h
        simp only [] at h
        unfold dcontains at h
        obtain ⟨⟨b, em⟩, hbe⟩ := Option.isSome_iff_exists.mp h
        obtain ⟨c2, hok, _⟩ := CompVariant.connect_ok c pin u pr b em hbe
        exact ⟨{ g with c_nodes := g.c_nodes.set i c2 },
          by simp [CircuitGraph.connectAt, hl, hc, hok], rfl, rfl, rfl, by simp⟩

/-- Claim C3 (amended): link fails, surfaced synchronously, whenever
either endpoint label is not a previously defined component; the
failure is the unknown-label KeyError condition when the offending
label is absent from the label table, while an endpoint label that
names an edge fails with an AttributeError instead (LineEdge has no
on_line_connect). -/
theorem cograph_C3_link_not_component_fails
    (g : CircuitGraph) (label u_id u_pin v_id v_pin : String) (props : PhysicalProperties)
    (h : g.isComponentLabel u_id = false ∨ g.isComponentLabel v_id = false) :
    (∃ e, (g.link label (u_id, u_pin) (v_id, v_pin) props).2 = .error e) ∧
    (dlookup u_id g.labels = none →
      (g.link label (u_id, u_pin) (v_id, v_pin) props).2 = .error (.keyError u_id)) ∧
    (∀ k, dlookup u_id g.labels = some (.edgeRef k) →
      (g.link label (u_id, u_pin) (v_id, v_pin) props).2 =
        .error (.attributeError "LineEdge object has no attribute on_line_connect")) ∧
    (g.hasCompPin u_id u_pin = true → dlookup v_id g.labels = none →
      (g.link label (u_id, u_pin) (v_id, v_pin) props).2 = .error (.keyError v_id)) ∧
    (∀ k, g.hasCompPin u_id u_pin = true → dlookup v_id g.labels = some (.edgeRef k) →
      (g.link label (u_id, u_pin) (v_id, v_pin) props).2 =
        .error (.attributeError "LineEdge object has no attribute on_line_connect")) := by
  refine ⟨?_, ?_, ?_, ?_, ?_⟩
  · rcases hres : CircuitGraph.connectAt { g with uuidCtr := g.uuidCtr + 1 }
        u_id u_pin g.uuidCtr props with e | g1
    · exact ⟨e, by simp [CircuitGraph.link, hres]⟩
    · have hu_comp : g.isComponentLabel u_id = true := by
        cases hb : g.isComponentLabel u_id with
        | true => rfl
        | false =>
          obtain ⟨e, he⟩ := connectAt_not_component
            { g with uuidCtr := g.uuidCtr + 1 } u_id u_pin g.uuidCtr props hb
          rw [he] at hres
          exact absurd hres (by simp)
      have hv : g.isComponentLabel v_id = false := by
        rcases h with h | h
        · rw [hu_comp] at h
          exact absurd h (by simp)
        · exact h
      obtain ⟨hlab, _, _, hlen⟩ := connectAt_ok_shape
        { g with uuidCtr := g.uuidCtr + 1 } g1 u_id u_pin g.uuidCtr props hres
      have hv1 : g1.isComponentLabel v_id = false := by
        unfold CircuitGraph.isComponentLabel at hv ⊢
        simp only [hlab, hlen]
        exact hv
      obtain ⟨e, he⟩ := connectAt_not_component g1 v_id v_pin g.uuidCtr props hv1
      exact ⟨e, by simp [CircuitGraph.link, hres, he]⟩
  · intro hu
    have hu0 : dlookup u_id ({ g with uuidCtr := g.uuidCtr + 1 } : CircuitGraph).labels = none := hu
    have herr : CircuitGraph.connectAt { g with uuidCtr := g.uuidCtr + 1 }
        u_id u_pin g.uuidCtr props = .error (.keyError u_id) := by
      simp [CircuitGraph.connectAt, hu0]
    simp [CircuitGraph.link, herr]
  · intro k hk
    have hk0 : dlookup u_id ({ g with uuidCtr := g.uuidCtr + 1 } : CircuitGraph).labels =
        some (.edgeRef k) := hk
    have herr : CircuitGraph.connectAt { g with uuidCtr := g.uuidCtr + 1 }
        u_id u_pin g.uuidCtr props =
        .error (.attributeError "LineEdge object has no attribute on_line_connect") := by
      simp [CircuitGraph.connectAt, hk0]
    simp [CircuitGraph.link, herr]
  · intro hpin hv
    have hpin0 : CircuitGraph.hasCompPin { g with uuidCtr := g.uuidCtr + 1 } u_id u_pin = true := hpin
    obtain ⟨g1, hok, hlab, _, _, _⟩ := connectAt_hasPin_ok
      { g with uuidCtr := g.uuidCtr + 1 } u_id u_pin g.uuidCtr props hpin0
    have hv1 : dlookup v_id g1.labels = none := by
      rw [hlab]
      exact hv
    have herr : g1.connectAt v_id v_pin g.uuidCtr props = .error (.keyError v_id) := by
      simp [CircuitGraph.connectAt, hv1]
    simp [CircuitGraph.link, hok, herr]
  · intro k hpin hv
    have hpin0 : CircuitGraph.hasCompPin { g with uuidCtr := g.uuidCtr + 1 } u_id u_pin = true := hpin
    obtain ⟨g1, hok, hlab, _, _, _⟩ := connectAt_hasPin_ok
      { g with uuidCtr := g.uuidCtr + 1 } u_id u_pin g.uuidCtr props hpin0
    have hv1 : dlookup v_id g1.labels = some (.edgeRef k) := by
      rw [hlab]
      exact hv
    have herr : g1.connectAt v_id v_pin g.uuidCtr props =
        .error (.attributeError "LineEdge object has no attribute on_line_connect") := by
      simp [CircuitGraph.connectAt, hv1]
    simp [CircuitGraph.link, hok, herr]

/-- Witness for C3 at a concrete graph with an unbound endpoint label. -/
theorem cograph_C3_witness :
    (exG2.link "w" ("zzz", "p1") ("r", "p2") exProps).2 = .error (.keyError "zzz") :=
  (cograph_C3_link_not_component_fails exG2 "w" "zzz" "p1" "r" "p2" exProps
    (Or.inl (by decide))).2.1 (by decide)

theorem getElem?_set_self_of_lt {α : Type} (l : List α) (i : Nat) (a : α)
    (h : i < l.length) : (l.set i a)[i]? = some a := by
  simp [List.getElem?_set_self', h]

theorem getElem?_lt_of_some {α : Type} {l : List α} {i : Nat} {a : α}
    (h : l[i]? = some a) : i < l.length :=
  (List.getElem?_eq_some.mp h).1

theorem CompVariant.connect_ok_lookup (c c2 : CompVariant) (pin : String) (u : Nat)
    (pr : PhysicalProperties) (h : c.on_line_connect pin u pr = .ok c2) :
    dlookup u (pinEdgeMap c2.pins pin) = some pr := by
  cases c with
  | resistor st =>
    unfold CompVariant.on_line_connect Resistor.on_line_connect at h
    rcases hbe : dlookup pin st.pins with _ | be
    · simp [hbe, Except.map] at h
    · obtain ⟨b, em⟩ := be
      simp [hbe, Except.map] at h
      subst h
      simp [CompVariant.pins, pinEdgeMap, dlookup_dset_self]
  | voltageDC st =>
    unfold CompVariant.on_line_connect VoltageDC.on_line_connect at h
    rcases hbe : dlookup pin st.pins with _ | be
    · simp [hbe, Except.map] at h
    · obtain ⟨b, em⟩ := be
      simp [hbe, Except.map] at h
      subst h
      simp [CompVariant.pins, pinEdgeMap, dlookup_dset_self]

theorem CompVariant.connect_preserves_lookup (c c2 : CompVariant) (pin2 pin : String)
    (u : Nat) (pr : PhysicalProperties)
    (h : c.on_line_connect pin2 u pr = .ok c2)
    (hprev : dlookup u (pinEdgeMap c.pins pin) = some pr) :
    dlookup u (pinEdgeMap c2.pins pin) = some pr := by
  cases c with
  | resistor st =>
    unfold CompVariant.on_line_connect Resistor.on_line_connect at h
    rcases hbe : dlookup pin2 st.pins with _ | be
    · simp [hbe, Except.map] at h
    · obtain ⟨b2, em2⟩ := be
      simp [hbe, Except.map] at h
      subst h
      simp only [CompVariant.pins] at hprev ⊢
      by_cases hp : pin = pin2
      · subst hp
        simp [pinEdgeMap, dlookup_dset_self]
      · have hne : pin2 ≠ pin := fun hh => hp hh.symm
        simp only [pinEdgeMap, dlookup_dset_ne _ _ hne]
        simp only [pinEdgeMap] at hprev
        exact hprev
  | voltageDC st =>
    unfold CompVariant.on_line_connect VoltageDC.on_line_connect at h
    rcases hbe : dlookup pin2 st.pins with _ | be
    · simp [hbe, Except.map] at h
    · obtain ⟨b2, em2⟩ := be
      simp [hbe, Except.map] at h
      subst h
      simp only [CompVariant.pins] at hprev ⊢
      by_cases hp : pin = pin2
      · subst hp
        simp [pinEdgeMap, dlookup_dset_self]
      · have hne : pin2 ≠ pin := fun hh => hp hh.symm
        simp only [pinEdgeMap, dlookup_dset_ne _ _ hne]
        simp only [pinEdgeMap] at hprev
        exact hprev

theorem CompVariant.connect_preserves_dcontains (c c2 : CompVariant) (pin2 : String)
    (u : Nat) (pr : PhysicalProperties) (h : c.on_line_connect pin2 u pr = .ok c2)
    (pin : String) (hd : dcontains pin c.pins = true) : dcontains pin c2.pins = true := by
  cases c with
  | resistor st =>
    unfold CompVariant.on_line_connect Resistor.on_line_connect at h
    rcases hbe : dlookup pin2 st.pins with _ | be
    · simp [hbe, Except.map] at h
    · obtain ⟨b2, em2⟩ := be
      simp [hbe, Except.map] at h
      subst h
      simp only [CompVariant.pins] at hd ⊢
      rw [dcontains_dset_of_mem _ (dcontains_of_dlookup hbe)]
      exact hd
  | voltageDC st =>
    unfold CompVariant.on_line_connect VoltageDC.on_line_connect at h
    rcases hbe : dlookup pin2 st.pins with _ | be
    · simp [hbe, Except.map] at h
    · obtain ⟨b2, em2⟩ := be
      simp [hbe, Except.map] at h
      subst h
      simp only [CompVariant.pins] at hd ⊢
      rw [dcontains_dset_of_mem _ (dcontains_of_dlookup hbe)]
      exact hd

theorem connectAt_ok_inv (g g2 : CircuitGraph) (lbl pin : String) (u : Nat)
    (pr : PhysicalProperties) (h : g.connectAt lbl pin u pr = .ok g2) :
    ∃ i c c2, dlookup lbl g.labels = some (.compRef i) ∧ g.c_nodes[i]? = some c ∧
      c.on_line_connect pin u pr = .ok c2 ∧
      g2 = { g with c_nodes := g.c_nodes.set i c2 } := by
  unfold CircuitGraph.connectAt at h
  rcases hl : dlookup lbl g.labels with _ | r
  · simp [hl] at h
  · cases r with
    | edgeRef k => simp [hl] at h
    | compRef i =>
      rcases hc : g.c_nodes[i]? with _ | c
      · simp [hl, hc] at h
      · rcases ho : c.on_line_connect pin u pr with e | c2
        · simp [hl, hc, ho] at h
        · simp [hl, hc, ho] at h
          exact ⟨i, c, c2, rfl, hc, ho, h.symm⟩

theorem connectAt_sets_pinEdge (g g2 : CircuitGraph) (lbl pin : String) (u : Nat)
    (pr : PhysicalProperties) (h : g.connectAt lbl pin u pr = .ok g2) :
    g2.compPinEdge lbl pin u = some pr := by
  obtain ⟨i, c, c2, hl, hc, ho, rfl⟩ := connectAt_ok_inv g g2 lbl pin u pr h
  have hlt : i < g.c_nodes.length := getElem?_lt_of_some hc
  unfold CircuitGraph.compPinEdge
  simp only [hl, getElem?_set_self_of_lt g.c_nodes i c2 hlt]
  exact CompVariant.connect_ok_lookup c c2 pin u pr ho

theorem connectAt_preserves_pinEdge (g g2 : CircuitGraph) (lbl2 pin2 lbl pin : String)
    (u : Nat) (pr : PhysicalProperties) (h : g.connectAt lbl2 pin2 u pr = .ok g2)
    (hprev : g.compPinEdge lbl pin u = some pr) :
    g2.compPinEdge lbl pin u = some pr := by
  obtain ⟨i, c, c2, hl2, hc2, ho, rfl⟩ := connectAt_ok_inv g g2 lbl2 pin2 u pr h
  unfold CircuitGraph.compPinEdge at hprev ⊢
  rcases hl : dlookup lbl g.labels with _ | r
  · rw [hl] at hprev
    simp at hprev
  · cases r with
    | edgeRef k =>
      rw [hl] at hprev
      simp at hprev
    | compRef j =>
      rw [hl] at hprev
      dsimp only at hprev
      simp only [hl]
      rcases hcj : g.c_nodes[j]? with _ | cj
      · rw [hcj] at hprev
        simp at hprev
      · rw [hcj] at hprev
        simp only [] at hprev
        by_cases hij : j = i
        · subst hij
          have hcc : cj = c := by
            rw [hcj] at hc2
            exact Option.some.inj hc2
          subst hcc
          simp only [getElem?_set_self_of_lt g.c_nodes j c2 (getElem?_lt_of_some hcj)]
          exact CompVariant.connect_preserves_lookup cj c2 pin2 pin u pr ho hprev
        · have hne : i ≠ j := fun hh => hij hh.symm
          simp only [List.getElem?_set_ne hne, hcj]
          exact hprev

theorem connectAt_preserves_hasCompPin (g g2 : CircuitGraph) (lbl2 pin2 : String)
    (u : Nat) (pr : PhysicalProperties) (h : g.connectAt lbl2 pin2 u pr = .ok g2)
    (lbl pin : String) (hp : g.hasCompPin lbl pin = true) :
    g2.hasCompPin lbl pin = true := by
  obtain ⟨i, c, c2, hl2, hc2, ho, rfl⟩ := connectAt_ok_inv g g2 lbl2 pin2 u pr h
  unfold CircuitGraph.hasCompPin at hp ⊢
  rcases hl : dlookup lbl g.labels with _ | r
  · rw [hl] at hp
    simp at hp
  · cases r with
    | edgeRef k =>
      rw [hl] at hp
      simp at hp
    | compRef j =>
      rw [hl] at hp
      dsimp only at hp
      simp only [hl]
      rcases hcj : g.c_nodes[j]? with _ | cj
      · rw [hcj] at hp
        simp at hp
      · rw [hcj] at hp
        simp only [] at hp
        by_cases hij : j = i
        · subst hij
          have hcc : cj = c := by
            rw [hcj] at hc2
            exact Option.some.inj hc2
          subst hcc
          simp only [getElem?_set_self_of_lt g.c_nodes j c2 (getElem?_lt_of_some hcj)]
          exact CompVariant.connect_preserves_dcontains cj c2 pin2 u pr ho pin hp
        · have hne : i ≠ j := fun hh => hij hh.symm
          simp only [List.getElem?_set_ne hne, hcj]
          exact hp

theorem define_pinEdge_preserved (g : CircuitGraph) (label : String) (item : Item)
    (lbl pin : String) (u : Nat) (pr : PhysicalProperties) (hne : lbl ≠ label)
    (hprev : g.compPinEdge lbl pin u = some pr) :
    ((g.define label item).1).compPinEdge lbl pin u = some pr := by
  have hne2 : label ≠ lbl := fun hh => hne hh.symm
  unfold CircuitGraph.define
  by_cases hc : dcontains label g.labels
  · simp only [hc, if_true]
    exact hprev
  · simp only [hc, Bool.false_eq_true, if_false]
    cases item with
    | comp c =>
      unfold CircuitGraph.compPinEdge at hprev ⊢
      simp only [dlookup_dset_ne _ _ hne2]
      rcases hl : dlookup lbl g.labels with _ | r
      · rw [hl] at hprev
        simp at hprev
      · cases r with
        | edgeRef k =>
          rw [hl] at hprev
          simp at hprev
        | compRef j =>
          rw [hl] at hprev
          dsimp only at hprev
          simp only [hl]
          rcases hcj : g.c_nodes[j]? with _ | cj
          · rw [hcj] at hprev
            simp at hprev
          · rw [hcj] at hprev
            simp only [List.getElem?_append_left (getElem?_lt_of_some hcj), hcj]
            exact hprev
    | edge e =>
      unfold CircuitGraph.compPinEdge at hprev ⊢
      simp only [dlookup_dset_ne _ _ hne2]
      exact hprev
    | other t =>
      exact hprev

theorem hasCompPin_dcontains (g : CircuitGraph) (lbl pin : String)
    (h : g.hasCompPin lbl pin = true) : dcontains lbl g.labels = true := by
  unfold CircuitGraph.hasCompPin at h
  unfold dcontains
  rcases hl : dlookup lbl g.labels with _ | r
  · rw [hl] at h
    simp at h
  · simp

/-- Claim C1 (amended): for every call of link whose endpoint labels
name previously defined components with the named pins present in
their pin tables, and whose own label is not yet defined, link creates
a LineEdge with a fresh unique id carrying the given properties and
endpoints, registers that id with those properties on both endpoint
components for their respective pins, defines the edge under the
label, and returns the new edge's id. -/
theorem cograph_C1_link_ok
    (g : CircuitGraph) (label u_id u_pin v_id v_pin : String) (props : PhysicalProperties)
    (hu : g.hasCompPin u_id u_pin = true)
    (hv : g.hasCompPin v_id v_pin = true)
    (hl : dcontains label g.labels = false)
    (hfresh : ∀ e ∈ g.l_edges, e.uuid < g.uuidCtr) :
    (g.link label (u_id, u_pin) (v_id, v_pin) props).2 = .ok g.uuidCtr ∧
    (∀ e ∈ g.l_edges, e.uuid ≠ g.uuidCtr) ∧
    (g.link label (u_id, u_pin) (v_id, v_pin) props).1.l_edges =
      g.l_edges ++ [⟨g.uuidCtr, props, u_id, u_pin, v_id, v_pin⟩] ∧
    dlookup label ((g.link label (u_id, u_pin) (v_id, v_pin) props).1.labels) =
      some (.edgeRef g.l_edges.length) ∧
    (g.link label (u_id, u_pin) (v_id, v_pin) props).1.compPinEdge
      u_id u_pin g.uuidCtr = some props ∧
    (g.link label (u_id, u_pin) (v_id, v_pin) props).1.compPinEdge
      v_id v_pin g.uuidCtr = some props := by
  have hu0 : CircuitGraph.hasCompPin { g with uuidCtr := g.uuidCtr + 1 } u_id u_pin = true := hu
  have hv0 : CircuitGraph.hasCompPin { g with uuidCtr := g.uuidCtr + 1 } v_id v_pin = true := hv
  obtain ⟨g1, hok1, hlab1, hled1, hctr1, hlen1⟩ :=
    connectAt_hasPin_ok { g with uuidCtr := g.uuidCtr + 1 } u_id u_pin g.uuidCtr props hu0
  have hpe1 : g1.compPinEdge u_id u_pin g.uuidCtr = some props :=
    connectAt_sets_pinEdge _ g1 u_id u_pin g.uuidCtr props hok1
  have hv1 : g1.hasCompPin v_id v_pin = true :=
    connectAt_preserves_hasCompPin _ g1 u_id u_pin g.uuidCtr props hok1 v_id v_pin hv0
  obtain ⟨g2, hok2, hlab2, hled2, hctr2, hlen2⟩ :=
    connectAt_hasPin_ok g1 v_id v_pin g.uuidCtr props hv1
  have hpe2 : g2.compPinEdge v_id v_pin g.uuidCtr = some props :=
    connectAt_sets_pinEdge g1 g2 v_id v_pin g.uuidCtr props hok2
  have hpe1b : g2.compPinEdge u_id u_pin g.uuidCtr = some props :=
    connectAt_preserves_pinEdge g1 g2 v_id v_pin u_id u_pin g.uuidCtr props hok2 hpe1
  have hlabg : g2.labels = g.labels := by
    rw [hlab2, hlab1]
  have hledg : g2.l_edges = g.l_edges := by
    rw [hled2, hled1]
  have hdcon : dcontains label g2.labels = false := by
    rw [hlabg]
    exact hl
  have hne_u : u_id ≠ label := by
    intro hh
    have hcu2 := hasCompPin_dcontains g u_id u_pin hu
    rw [hh, hl] at hcu2
    exact Bool.false_ne_true hcu2
  have hne_v : v_id ≠ label := by
    intro hh
    have hcv2 := hasCompPin_dcontains g v_id v_pin hv
    rw [hh, hl] at hcv2
    exact Bool.false_ne_true hcv2
  have hdef : g2.define label (.edge ⟨g.uuidCtr, props, u_id, u_pin, v_id, v_pin⟩) =
      ({ g2 with
          l_edges := g2.l_edges ++ [⟨g.uuidCtr, props, u_id, u_pin, v_id, v_pin⟩]
          labels := dset label (.edgeRef g2.l_edges.length) g2.labels }, none) := by
    unfold CircuitGraph.define
    simp [hdcon]
  have hR : g.link label (u_id, u_pin) (v_id, v_pin) props =
      ((g2.define label (.edge ⟨g.uuidCtr, props, u_id, u_pin, v_id, v_pin⟩)).1,
        .ok g.uuidCtr) := by
    simp [CircuitGraph.link, hok1, hok2, hdef]
  refine ⟨?_, ?_, ?_, ?_, ?_, ?_⟩
  · rw [hR]
  · exact fun e he => Nat.ne_of_lt (hfresh e he)
  · rw [hR, hdef]
    dsimp only
    rw [hledg]
  · rw [hR, hdef]
    dsimp only
    rw [dlookup_dset_self, hledg]
  · rw [hR]
    exact define_pinEdge_preserved g2 label _ u_id u_pin g.uuidCtr props hne_u hpe1b
  · rw [hR]
    exact define_pinEdge_preserved g2 label _ v_id v_pin g.uuidCtr props hne_v hpe2

/-- Witness for C1 at a concrete link call on exG2. -/
theorem cograph_C1_witness :
    (exG2.link "e" ("v", "neg") ("r", "p1") exProps).2 = .ok exG2.uuidCtr ∧
    (∀ e ∈ exG2.l_edges, e.uuid ≠ exG2.uuidCtr) ∧
    (exG2.link "e" ("v", "neg") ("r", "p1") exProps).1.l_edges =
      exG2.l_edges ++ [⟨exG2.uuidCtr, exProps, "v", "neg", "r", "p1"⟩] ∧
    dlookup "e" ((exG2.link "e" ("v", "neg") ("r", "p1") exProps).1.labels) =
      some (.edgeRef exG2.l_edges.length) ∧
    (exG2.link "e" ("v", "neg") ("r", "p1") exProps).1.compPinEdge
      "v" "neg" exG2.uuidCtr = some exProps ∧
    (exG2.link "e" ("v", "neg") ("r", "p1") exProps).1.compPinEdge
      "r" "p1" exG2.uuidCtr = some exProps :=
  cograph_C1_link_ok exG2 "e" "v" "neg" "r" "p1" exProps
    (by decide) (by decide) (by decide) (by decide)

/-- Claim C8: for any component, known pin P and edge X with fixed
properties, connect then disconnect then reconnect leaves the
component in the same state (Python ==, dict order ignored) as a
single connect; when X was not previously registered on P the two
states are literally identical, so the incoming view any future tick
builds from the component's pin state is the same. -/
theorem cograph_C8_reconnect (c : CompVariant) (P : String) (X : Nat)
    (v : PhysicalProperties) (hP : dcontains P c.pins = true) :
    ∃ c1 c2 c3,
      c.on_line_connect P X v = .ok c1 ∧
      c1.on_line_disconnect P X = .ok c2 ∧
      c2.on_line_connect P X v = .ok c3 ∧
      CompVariant.pyEq c3 c1 ∧
      (dcontains X (pinEdgeMap c.pins P) = false → c3 = c1) := by
  cases c with
  | resistor st =>
    have hP2 : dcontains P st.pins = true := hP
    unfold dcontains at hP2
    obtain ⟨⟨b, em⟩, hbe⟩ := Option.isSome_iff_exists.mp hP2
    have hXin : dcontains X (dset X v em) = true := by
      rw [dcontains_dset]
      simp
    refine ⟨.resistor { st with pins := dset P (b, dset X v em) st.pins },
      .resistor { st with pins := dset P (b, dpop X (dset X v em)) st.pins },
      .resistor { st with pins := dset P (b, dset X v (dpop X (dset X v em))) st.pins },
      ?_, ?_, ?_, ?_, ?_⟩
    · simp [CompVariant.on_line_connect, Resistor.on_line_connect, hbe, Except.map]
    · simp [CompVariant.on_line_disconnect, Resistor.on_line_disconnect,
        dlookup_dset_self, hXin, Except.map, dset_dset_self]
    · simp [CompVariant.on_line_connect, Resistor.on_line_connect,
        dlookup_dset_self, Except.map, dset_dset_self]
    · refine ⟨rfl, rfl, rfl, ?_⟩
      intro k
      by_cases hk : k = P
      · subst hk
        simp only [CompVariant.pins, dlookup_dset_self]
        exact ⟨rfl, fun i => dlookup_reconnect X v em i⟩
      · have hPk : P ≠ k := fun hh => hk hh.symm
        simp only [CompVariant.pins, dlookup_dset_ne _ _ hPk]
        exact pinEntryEquiv_refl _
    · intro hX
      simp only [CompVariant.pins, pinEdgeMap, hbe] at hX
      rw [dpop_dset_of_not_mem X v em hX]
  | voltageDC st =>
    have hP2 : dcontains P st.pins = true := hP
    unfold dcontains at hP2
    obtain ⟨⟨b, em⟩, hbe⟩ := Option.isSome_iff_exists.mp hP2
    have hXin : dcontains X (dset X v em) = true := by
      rw [dcontains_dset]
      simp
    refine ⟨.voltageDC { st with pins := dset P (b, dset X v em) st.pins },
      .voltageDC { st with pins := dset P (b, dpop X (dset X v em)) st.pins },
      .voltageDC { st with pins := dset P (b, dset X v (dpop X (dset X v em))) st.pins },
      ?_, ?_, ?_, ?_, ?_⟩
    · simp [CompVariant.on_line_connect, VoltageDC.on_line_connect, hbe, Except.map]
    · simp [CompVariant.on_line_disconnect, VoltageDC.on_line_disconnect,
        dlookup_dset_self, hXin, Except.map, dset_dset_self]
    · simp [CompVariant.on_line_connect, VoltageDC.on_line_connect,
        dlookup_dset_self, Except.map, dset_dset_self]
    · refine ⟨rfl, rfl, rfl, rfl, rfl, rfl, ?_⟩
      intro k
      by_cases hk : k = P
      · subst hk
        simp only [CompVariant.pins, dlookup_dset_self]
        exact ⟨rfl, fun i => dlookup_reconnect X v em i⟩
      · have hPk : P ≠ k := fun hh => hk hh.symm
        simp only [CompVariant.pins, dlookup_dset_ne _ _ hPk]
        exact pinEntryEquiv_refl _
    · intro hX
      simp only [CompVariant.pins, pinEdgeMap, hbe] at hX
      rw [dpop_dset_of_not_mem X v em hX]

/-- Witness for C8 on a fresh resistor, pin p1, edge id 5. -/
theorem cograph_C8_witness :
    ∃ c1 c2 c3,
      (CompVariant.resistor Resistor.mkInit).on_line_connect "p1" 5 exProps = .ok c1 ∧
      c1.on_line_disconnect "p1" 5 = .ok c2 ∧
      c2.on_line_connect "p1" 5 exProps = .ok c3 ∧
      CompVariant.pyEq c3 c1 ∧
      (dcontains 5 (pinEdgeMap (CompVariant.resistor Resistor.mkInit).pins "p1") = false →
        c3 = c1) :=
  cograph_C8_reconnect (CompVariant.resistor Resistor.mkInit) "p1" 5 exProps (by decide)

end Conets
